import Mathlib

/-!
Shallow embedding of `src/NeuralNetwork/next_round_value.py` (PyStack).

The `NextRoundValue` class keeps per-subgame mutable state (iteration
counter, preallocated numpy buffers, masks, normalization constants and a
running accumulator).  We model that state as an explicit `EngineState`
record of total functions over `ℕ` indices; numpy arrays of shape
`[b,B,P,H]` become functions `ℕ → ℕ → ℕ → ℕ → ℚ` whose values outside the
recorded extents are irrelevant.  Real (float) arithmetic is modelled over
`ℚ`.  The two pretrained value networks are opaque collaborators: each is
modelled as an arbitrary function from the per-iteration range slots of the
model-input buffer to the output tensor (the pot and board-feature columns
of the input are fixed once per setup, so they are absorbed into the
function chosen at setup).  `np.clip(x, -m, m)` is `min m (max (-m) x)`,
matching numpy's `minimum(hi, maximum(lo, x))`.  Stateful methods become
functions `EngineState → ... → EngineState × result`.
-/

namespace PyStack

/-- Tensor of shape `[b, B, P, H]` (state, board, player, hand), as in
`next_round_inputs` range slots / `next_round_values` / `cumulative_cfvs`. -/
abbrev Tensor4 := ℕ → ℕ → ℕ → ℕ → ℚ

/-- Tensor of shape `[b, B, P]`, as in `ranges_sum` / `values_norm` /
`cumulative_norm`. -/
abbrev Tensor3 := ℕ → ℕ → ℕ → ℚ

/-- A batch of input ranges of shape `[b, P, H]` passed to
`evaluate_ranges`. -/
abbrev RangeBatch := ℕ → ℕ → ℕ → ℚ

/-- A value network: maps the per-iteration range slots of the model-input
buffer to the model-output tensor (`ValueNn.predict` writing `nn_outputs`). -/
abbrev NnModel := Tensor4 → Tensor4

/-- The two operating modes of `evaluate_ranges`: the `if self.iter >
self.num_leaf_nodes_approximation_iters` branch selects root approximation,
the `else` branch selects leaf approximation. -/
inductive ApproxMode
  | leaf
  | root
  deriving DecidableEq

/-- The mutable state of a `NextRoundValue` instance after
`init_computation`, lines 33-101 of `next_round_value.py`. -/
structure EngineState where
  /-- `self.iter`, the iteration counter. -/
  iter : ℕ
  /-- `self.num_leaf_nodes_approximation_iters`, the leaf-iteration budget. -/
  num_leaf_nodes_approximation_iters : ℕ
  /-- `arguments.cfr_skip_iters`, the warm-up skip threshold (global config
  read at line 159). -/
  cfr_skip_iters : ℕ
  /-- `arguments.stack`, the stack size (global config, line 153). -/
  stack : ℚ
  /-- `self.batch_size` (line 95), the number of evaluated states. -/
  batch_size : ℕ
  /-- `constants.hand_count` (HC). -/
  hand_count : ℕ
  /-- `self.next_boards_count` (BC, line 91). -/
  next_boards_count : ℕ
  /-- `self.pot_sizes` flattened to shape `[b]` (lines 93-94). -/
  pot_sizes : ℕ → ℚ
  /-- `self.next_boards_mask` of shape `[BC, HC]` (line 42). -/
  next_boards_mask : ℕ → ℕ → Bool
  /-- `self.current_board_mask` of shape `[HC]` (line 69, row 0). -/
  current_board_mask : ℕ → Bool
  /-- `self.root_nodes_sum_normalization` (line 56). -/
  root_nodes_sum_normalization : ℚ
  /-- `self.leaf_nodes_sum_normalization` (line 78). -/
  leaf_nodes_sum_normalization : ℚ
  /-- Range slots (`[:, :, :PC*HC]`) of `self.next_round_inputs`, indexed
  `[b, B, p, h]`. -/
  next_round_inputs : Tensor4
  /-- Range slots of `self.current_round_inputs`, indexed `[b, B, p, h]`
  with board extent 1. -/
  current_round_inputs : Tensor4
  /-- `self.next_round_values`, the root-mode output buffer. -/
  next_round_values : Tensor4
  /-- `self.current_round_values`, the leaf-mode output buffer. -/
  current_round_values : Tensor4
  /-- `self.next_street_nn`, the mandatory root-mode model. -/
  next_street_nn : NnModel
  /-- `self.leaf_nodes_nn`, the optional leaf-mode model. -/
  leaf_nodes_nn : NnModel
  /-- `self.cumulative_norm` of shape `[b, BC, PC]` (line 58). -/
  cumulative_norm : Tensor3
  /-- `self.cumulative_cfvs` of shape `[b, BC, PC, HC]` (line 59). -/
  cumulative_cfvs : Tensor4

namespace NextRoundValue

/-- Modelled from the spec: `card_combinations.count_next_boards_possible_boards`
(called at line 55) is code of this repository outside `src/`.  The spec
describes the root-mode normalization constant built from it as "1 / (the
combinatorial count of boards reachable at the next round for this round),
i.e. a uniform prior over enumerated continuations", so the count equals the
size of the enumerated next-board set (`next_boards_count`). -/
def card_combinations_count_next_boards_possible_boards (next_boards_count : ℕ) : ℕ :=
  next_boards_count

/-- Mode selected by the `if self.iter > self.num_leaf_nodes_approximation_iters`
test at line 115, evaluated after the `self.iter += 1` at line 113; `s` is
the state at entry to `evaluate_ranges`, so the incremented counter is
`s.iter + 1`. -/
def mode (s : EngineState) : ApproxMode :=
  if s.num_leaf_nodes_approximation_iters < s.iter + 1 then ApproxMode.root
  else ApproxMode.leaf

/-- `BC` as bound at lines 116 / 123. -/
def active_bc (s : EngineState) : ℕ :=
  match mode s with
  | ApproxMode.root => s.next_boards_count
  | ApproxMode.leaf => 1

/-- `neural_network` as bound at lines 117 / 124. -/
def active_nn (s : EngineState) : NnModel :=
  match mode s with
  | ApproxMode.root => s.next_street_nn
  | ApproxMode.leaf => s.leaf_nodes_nn

/-- `mask` as bound at lines 120 / 127 (the leaf mask has a single board
row, broadcast over the board index). -/
def active_mask (s : EngineState) : ℕ → ℕ → Bool :=
  match mode s with
  | ApproxMode.root => s.next_boards_mask
  | ApproxMode.leaf => fun _ h => s.current_board_mask h

/-- `sum_normalization` as bound at lines 121 / 128. -/
def active_sum_normalization (s : EngineState) : ℚ :=
  match mode s with
  | ApproxMode.root => s.root_nodes_sum_normalization
  | ApproxMode.leaf => s.leaf_nodes_sum_normalization

/-- Lines 130-133: the input ranges repeated across the board axis, then
multiplied elementwise by the active mask (broadcast over players). -/
def masked_ranges (s : EngineState) (ranges : RangeBatch) : Tensor4 :=
  fun b B p h => ranges b p h * (if active_mask s B h then 1 else 0)

/-- Line 135: `ranges_sum = np.sum(ranges, axis=3)`, the per-(state, board,
player) masked range mass. -/
def ranges_sum (s : EngineState) (ranges : RangeBatch) : Tensor3 :=
  fun b B p => ∑ h in Finset.range s.hand_count, masked_ranges s ranges b B p h

/-- Lines 137-139: `values_norm` is zero-initialized and then its player-0
slot receives player 1's mass and its player-1 slot receives player 0's. -/
def values_norm (s : EngineState) (ranges : RangeBatch) : Tensor3 :=
  fun b B p =>
    if p = 0 then ranges_sum s ranges b B 1
    else if p = 1 then ranges_sum s ranges b B 0
    else 0

/-- Line 141: `ranges_sum[ranges_sum == 0] = 1`, the guarded divisor. -/
def guarded_ranges_sum (s : EngineState) (ranges : RangeBatch) : Tensor3 :=
  fun b B p =>
    if ranges_sum s ranges b B p = 0 then 1 else ranges_sum s ranges b B p

/-- Line 142: the masked ranges divided by their guarded own sum; this is
what line 144 writes into the range slots of the active input buffer. -/
def normalized_ranges (s : EngineState) (ranges : RangeBatch) : Tensor4 :=
  fun b B p h => masked_ranges s ranges b B p h / guarded_ranges_sum s ranges b B p

/-- Line 147: raw model output written by `neural_network.predict` into the
active output buffer. -/
def nn_out_raw (s : EngineState) (ranges : RangeBatch) : Tensor4 :=
  active_nn s (normalized_ranges s ranges)

/-- Line 149: `nn_outputs *= values_norm` (in place), the rescale by the
players-swapped masked mass. -/
def rescaled_out (s : EngineState) (ranges : RangeBatch) : Tensor4 :=
  fun b B p h => nn_out_raw s ranges b B p h * values_norm s ranges b B p

/-- Line 153: `max_values = arguments.stack / self.pot_sizes`, per state. -/
def max_values (s : EngineState) (b : ℕ) : ℚ :=
  s.stack / s.pot_sizes b

/-- Line 154: `nn_outputs = np.clip(nn_outputs, -max_values, max_values)`.
Note numpy's clip returns a fresh array: the local name is rebound and the
output buffer keeps the pre-clip rescaled values. -/
def clipped_out (s : EngineState) (ranges : RangeBatch) : Tensor4 :=
  fun b B p h =>
    min (max_values s b) (max (-(max_values s b)) (rescaled_out s ranges b B p h))

/-- Line 156: reduction over the board axis times the mode's normalization
constant; the value returned by `evaluate_ranges`. -/
def current_board_values (s : EngineState) (ranges : RangeBatch) : RangeBatch :=
  fun b p h =>
    (∑ B in Finset.range (active_bc s), clipped_out s ranges b B p h) *
      active_sum_normalization s

/-- Line 144 as a buffer update: the range slots of the active input buffer
within the buffer extent `[batch_size, BC, PC, HC]` receive the normalized
ranges; slots outside the extent keep their old contents. -/
def written_inputs (s : EngineState) (ranges : RangeBatch) (old : Tensor4) : Tensor4 :=
  fun b B p h =>
    if b < s.batch_size ∧ B < active_bc s ∧ p < 2 ∧ h < s.hand_count then
      normalized_ranges s ranges b B p h
    else old b B p h

/-- Lines 147-149 as a buffer update: within its extent the active output
buffer holds the rescaled (pre-clip) model output after the call. -/
def written_values (s : EngineState) (ranges : RangeBatch) (old : Tensor4) : Tensor4 :=
  fun b B p h =>
    if b < s.batch_size ∧ B < active_bc s ∧ p < 2 ∧ h < s.hand_count then
      rescaled_out s ranges b B p h
    else old b B p h

/-- Lines 113-163 of `evaluate_ranges`, after the batch-dimension assert:
increments the counter, runs the active-mode pipeline, conditionally
accumulates (line 159: only when the incremented counter exceeds both
`arguments.cfr_skip_iters` and the leaf budget) and returns the reduced
per-state CFVs. -/
def evaluate_ranges_core (s : EngineState) (ranges : RangeBatch) :
    EngineState × RangeBatch :=
  ⟨{ s with
      iter := s.iter + 1
      next_round_inputs :=
        match mode s with
        | ApproxMode.root => written_inputs s ranges s.next_round_inputs
        | ApproxMode.leaf => s.next_round_inputs
      current_round_inputs :=
        match mode s with
        | ApproxMode.root => s.current_round_inputs
        | ApproxMode.leaf => written_inputs s ranges s.current_round_inputs
      next_round_values :=
        match mode s with
        | ApproxMode.root => written_values s ranges s.next_round_values
        | ApproxMode.leaf => s.next_round_values
      current_round_values :=
        match mode s with
        | ApproxMode.root => s.current_round_values
        | ApproxMode.leaf => written_values s ranges s.current_round_values
      cumulative_cfvs :=
        if s.cfr_skip_iters < s.iter + 1 ∧
            s.num_leaf_nodes_approximation_iters < s.iter + 1 then
          fun b B p h => s.cumulative_cfvs b B p h + clipped_out s ranges b B p h
        else s.cumulative_cfvs
      cumulative_norm :=
        if s.cfr_skip_iters < s.iter + 1 ∧
            s.num_leaf_nodes_approximation_iters < s.iter + 1 then
          fun b B p => s.cumulative_norm b B p + values_norm s ranges b B p
        else s.cumulative_norm },
    current_board_values s ranges⟩

/-- `evaluate_ranges` including the `assert(ranges.shape[0] == self.batch_size)`
at line 112: a mismatched batch dimension fails the precondition (`none`). -/
def evaluate_ranges (s : EngineState) (ranges_dim0 : ℕ) (ranges : RangeBatch) :
    Option (EngineState × RangeBatch) :=
  if ranges_dim0 = s.batch_size then some (evaluate_ranges_core s ranges)
  else none

/-- `init_computation` (lines 81-101) together with the two `_init_*`
helpers: the engine state at the start of a subgame.  The feature/mask
collaborators (`card_tools`) are consumed as parameters; the pot sizes
`[p]` are repeated `batch_size_arg` times each (lines 93-94) giving the
recorded batch size `p * batch_size_arg`. -/
def init_computation (pot_sizes_arg : List ℚ) (batch_size_arg : ℕ)
    (next_boards_count hand_count : ℕ)
    (next_boards_mask : ℕ → ℕ → Bool) (current_board_mask : ℕ → Bool)
    (stack : ℚ) (num_leaf_iters cfr_skip_iters : ℕ)
    (next_street_nn leaf_nodes_nn : NnModel) : EngineState :=
  { iter := 0
    num_leaf_nodes_approximation_iters := num_leaf_iters
    cfr_skip_iters := cfr_skip_iters
    stack := stack
    batch_size := pot_sizes_arg.length * batch_size_arg
    hand_count := hand_count
    next_boards_count := next_boards_count
    pot_sizes := fun k => pot_sizes_arg.getD (k / batch_size_arg) 0
    next_boards_mask := next_boards_mask
    current_board_mask := current_board_mask
    root_nodes_sum_normalization :=
      1 / (card_combinations_count_next_boards_possible_boards next_boards_count : ℚ)
    leaf_nodes_sum_normalization :=
      1 / ∑ h in Finset.range hand_count, (if current_board_mask h then (1 : ℚ) else 0)
    next_round_inputs := fun _ _ _ _ => 0
    current_round_inputs := fun _ _ _ _ => 0
    next_round_values := fun _ _ _ _ => 0
    current_round_values := fun _ _ _ _ => 0
    next_street_nn := next_street_nn
    leaf_nodes_nn := leaf_nodes_nn
    cumulative_norm := fun _ _ _ => 0
    cumulative_cfvs := fun _ _ _ _ => 0 }

/-- Line 169: the in-place guard `cumulative_norm[cumulative_norm == 0] = 1`. -/
def guarded_cumulative_norm (s : EngineState) : Tensor3 :=
  fun b B p =>
    if s.cumulative_norm b B p = 0 then 1 else s.cumulative_norm b B p

/-- `get_stored_cfvs_of_all_next_round_boards` (lines 166-172): guards the
accumulated norm in place, divides the accumulated cfvs by it in place, and
returns the (aliased) `cumulative_cfvs` array. -/
def get_stored_cfvs_of_all_next_round_boards (s : EngineState) :
    EngineState × Tensor4 :=
  let norm := guarded_cumulative_norm s
  let cfvs := fun b B p h => s.cumulative_cfvs b B p h / norm b B p
  ⟨{ s with cumulative_norm := norm, cumulative_cfvs := cfvs }, cfvs⟩

/-- Iterated calls to `evaluate_ranges` within one subgame: `run_evaluates
rs s n` is the engine state after `n` further calls, the `k`-th being made
with ranges `rs k`. -/
def run_evaluates (rs : ℕ → RangeBatch) (s : EngineState) : ℕ → EngineState
  | 0 => s
  | n + 1 => (evaluate_ranges_core (run_evaluates rs s n) (rs n)).1

/-- A small concrete engine state (batch 1, one board, one hand, all hands
legal, pot 1, stack 1, root model constantly 5) in steady-state root mode
past warm-up: counter 5, zero skip threshold, zero leaf budget. -/
def demo_state : EngineState :=
  { iter := 5
    num_leaf_nodes_approximation_iters := 0
    cfr_skip_iters := 0
    stack := 1
    batch_size := 1
    hand_count := 1
    next_boards_count := 1
    pot_sizes := fun _ => 1
    next_boards_mask := fun _ _ => true
    current_board_mask := fun _ => true
    root_nodes_sum_normalization := 1
    leaf_nodes_sum_normalization := 1
    next_round_inputs := fun _ _ _ _ => 0
    current_round_inputs := fun _ _ _ _ => 0
    next_round_values := fun _ _ _ _ => 0
    current_round_values := fun _ _ _ _ => 0
    next_street_nn := fun _ _ _ _ _ => 5
    leaf_nodes_nn := fun _ _ _ _ _ => 0
    cumulative_norm := fun _ _ _ => 0
    cumulative_cfvs := fun _ _ _ _ => 0 }

/-- A concrete uniform range batch: probability 1 on the single hand. -/
def demo_ranges : RangeBatch := fun _ _ _ => 1

/-- `demo_state` with two hands of which only hand 0 is legal on any board. -/
def demo_state2 : EngineState :=
  { demo_state with
    hand_count := 2
    next_boards_mask := fun _ h => h == 0
    current_board_mask := fun h => h == 0 }

/-- A state whose accumulator already holds data: accumulated cfvs
constantly 4 with accumulated norm constantly 2. -/
def demo_accumulated : EngineState :=
  { demo_state with
    cumulative_cfvs := fun _ _ _ _ => 4
    cumulative_norm := fun _ _ _ => 2 }

/-- Shared frame lemma for the accumulation gate at line 159: when the
incremented counter does not exceed both thresholds, the accumulator fields
are returned unchanged. -/
theorem core_cumulative_frame (s : EngineState) (ranges : RangeBatch)
    (h : s.iter + 1 ≤ s.cfr_skip_iters ∨
      s.iter + 1 ≤ s.num_leaf_nodes_approximation_iters) :
    (evaluate_ranges_core s ranges).1.cumulative_cfvs = s.cumulative_cfvs ∧
    (evaluate_ranges_core s ranges).1.cumulative_norm = s.cumulative_norm := by
  have hcond : ¬(s.cfr_skip_iters < s.iter + 1 ∧
      s.num_leaf_nodes_approximation_iters < s.iter + 1) := by
    rcases h with h | h
    · exact fun hc => absurd hc.1 (Nat.not_lt.mpr h)
    · exact fun hc => absurd hc.2 (Nat.not_lt.mpr h)
  constructor
  · show (if _ then _ else s.cumulative_cfvs) = s.cumulative_cfvs
    rw [if_neg hcond]
  · show (if _ then _ else s.cumulative_norm) = s.cumulative_norm
    rw [if_neg hcond]

/-- C1, counterexample: the claim says the tensor added into
`cumulative_cfvs` is the pre-clip rescaled model output.  In the concrete
steady-state root-mode call on `demo_state` the pre-clip rescaled output is
`5`, the stack/pot bound is `1`, and the accumulator receives `1` — the
post-clip value — because `np.clip` at line 154 returns a fresh array bound
to the local name, so line 161 adds the clipped values. -/
theorem claim_c1_preclip_counterexample :
    (evaluate_ranges_core demo_state demo_ranges).1.cumulative_cfvs 0 0 0 0 = 1 ∧
    rescaled_out demo_state demo_ranges 0 0 0 0 = 5 ∧
    (evaluate_ranges_core demo_state demo_ranges).1.cumulative_cfvs 0 0 0 0 ≠
      rescaled_out demo_state demo_ranges 0 0 0 0 := by
  refine ⟨?_, ?_, ?_⟩ <;>
    norm_num [evaluate_ranges_core, clipped_out, rescaled_out, nn_out_raw, max_values,
      active_nn, normalized_ranges, guarded_ranges_sum, values_norm, ranges_sum,
      masked_ranges, active_mask, mode, demo_state, demo_ranges, Finset.sum_range_succ]

/-- C1, amended: on any call whose incremented counter exceeds both the
warm-up skip threshold and the leaf-iteration budget, the tensors added
into the running accumulator are the post-clip (clipped to ± stack/potSize),
pre-reduction per-board rescaled model output and its swapped-sum scale. -/
theorem claim_c1_accumulator_adds_postclip (s : EngineState) (ranges : RangeBatch)
    (hskip : s.cfr_skip_iters < s.iter + 1)
    (hleaf : s.num_leaf_nodes_approximation_iters < s.iter + 1) :
    ∀ b B p h,
      (evaluate_ranges_core s ranges).1.cumulative_cfvs b B p h =
        s.cumulative_cfvs b B p h + clipped_out s ranges b B p h ∧
      (evaluate_ranges_core s ranges).1.cumulative_norm b B p =
        s.cumulative_norm b B p + values_norm s ranges b B p := by
  intro b B p h
  have h1 : (evaluate_ranges_core s ranges).1.cumulative_cfvs =
      (if s.cfr_skip_iters < s.iter + 1 ∧
          s.num_leaf_nodes_approximation_iters < s.iter + 1 then
        fun b B p h => s.cumulative_cfvs b B p h + clipped_out s ranges b B p h
      else s.cumulative_cfvs) := rfl
  have h2 : (evaluate_ranges_core s ranges).1.cumulative_norm =
      (if s.cfr_skip_iters < s.iter + 1 ∧
          s.num_leaf_nodes_approximation_iters < s.iter + 1 then
        fun b B p => s.cumulative_norm b B p + values_norm s ranges b B p
      else s.cumulative_norm) := rfl
  rw [h1, h2, if_pos ⟨hskip, hleaf⟩, if_pos ⟨hskip, hleaf⟩]
  exact ⟨rfl, rfl⟩

/-- C1, witness for the amended theorem at the concrete root-mode call. -/
theorem claim_c1_accumulator_adds_postclip_witness :
    (evaluate_ranges_core demo_state demo_ranges).1.cumulative_cfvs 0 0 0 0 =
      demo_state.cumulative_cfvs 0 0 0 0 +
        clipped_out demo_state demo_ranges 0 0 0 0 ∧
    (evaluate_ranges_core demo_state demo_ranges).1.cumulative_norm 0 0 0 =
      demo_state.cumulative_norm 0 0 0 + values_norm demo_state demo_ranges 0 0 0 :=
  claim_c1_accumulator_adds_postclip demo_state demo_ranges (by decide) (by decide)
    0 0 0 0

/-- C7: a call of `evaluate_ranges` whose incremented counter is at most
the warm-up skip threshold or at most the leaf-iteration budget leaves the
accumulator state (`cumulative_cfvs` and `cumulative_norm`) exactly
unchanged. -/
theorem claim_c7_accumulator_frame (s : EngineState) (ranges : RangeBatch)
    (h : s.iter + 1 ≤ s.cfr_skip_iters ∨
      s.iter + 1 ≤ s.num_leaf_nodes_approximation_iters) :
    (evaluate_ranges_core s ranges).1.cumulative_cfvs = s.cumulative_cfvs ∧
    (evaluate_ranges_core s ranges).1.cumulative_norm = s.cumulative_norm :=
  core_cumulative_frame s ranges h

/-- C7, witness: a warm-up call (counter 1, skip threshold 3) leaves the
accumulator untouched. -/
theorem claim_c7_accumulator_frame_witness :
    (evaluate_ranges_core { demo_state with iter := 0, cfr_skip_iters := 3 }
        demo_ranges).1.cumulative_cfvs =
      ({ demo_state with iter := 0, cfr_skip_iters := 3 } : EngineState).cumulative_cfvs ∧
    (evaluate_ranges_core { demo_state with iter := 0, cfr_skip_iters := 3 }
        demo_ranges).1.cumulative_norm =
      ({ demo_state with iter := 0, cfr_skip_iters := 3 } : EngineState).cumulative_norm :=
  claim_c7_accumulator_frame _ demo_ranges (Or.inl (by decide))

/-- C3: mode selection is a pure function of the incremented counter and
the leaf-iteration budget — leaf exactly when counter ≤ budget — and the
selected mode fixes the model, board count, mask and normalization constant
used, a call in one mode leaves the other mode's buffers unchanged, and the
leaf-to-root switch is monotonic (a root-mode call is followed only by
root-mode calls, the counter only growing). -/
theorem claim_c3_mode_selection (s : EngineState) (ranges : RangeBatch) :
    (mode s = ApproxMode.leaf ↔ s.iter + 1 ≤ s.num_leaf_nodes_approximation_iters) ∧
    (s.iter + 1 ≤ s.num_leaf_nodes_approximation_iters →
      active_bc s = 1 ∧ active_nn s = s.leaf_nodes_nn ∧
      active_mask s = (fun _ h => s.current_board_mask h) ∧
      active_sum_normalization s = s.leaf_nodes_sum_normalization ∧
      (evaluate_ranges_core s ranges).1.next_round_inputs = s.next_round_inputs ∧
      (evaluate_ranges_core s ranges).1.next_round_values = s.next_round_values) ∧
    (s.num_leaf_nodes_approximation_iters < s.iter + 1 →
      active_bc s = s.next_boards_count ∧ active_nn s = s.next_street_nn ∧
      active_mask s = s.next_boards_mask ∧
      active_sum_normalization s = s.root_nodes_sum_normalization ∧
      (evaluate_ranges_core s ranges).1.current_round_inputs = s.current_round_inputs ∧
      (evaluate_ranges_core s ranges).1.current_round_values = s.current_round_values) ∧
    (mode s = ApproxMode.root → mode (evaluate_ranges_core s ranges).1 = ApproxMode.root) := by
  by_cases hc : s.num_leaf_nodes_approximation_iters < s.iter + 1
  · have hm : mode s = ApproxMode.root := by rw [mode, if_pos hc]
    refine ⟨?_, ?_, ?_, ?_⟩
    · rw [hm]
      constructor
      · intro h; cases h
      · intro h; exact absurd hc (Nat.not_lt.mpr h)
    · intro h; exact absurd hc (Nat.not_lt.mpr h)
    · intro _
      refine ⟨?_, ?_, ?_, ?_, ?_, ?_⟩ <;>
        simp only [active_bc, active_nn, active_mask, active_sum_normalization,
          evaluate_ranges_core, hm]
    · intro _
      rw [mode, if_pos]
      show s.num_leaf_nodes_approximation_iters < s.iter + 1 + 1
      omega
  · have hm : mode s = ApproxMode.leaf := by rw [mode, if_neg hc]
    refine ⟨?_, ?_, ?_, ?_⟩
    · rw [hm]
      constructor
      · intro _; omega
      · intro _; rfl
    · intro _
      refine ⟨?_, ?_, ?_, ?_, ?_, ?_⟩ <;>
        simp only [active_bc, active_nn, active_mask, active_sum_normalization,
          evaluate_ranges_core, hm]
    · intro h; exact absurd h hc
    · intro h; rw [hm] at h; cases h

/-- C3, witness: `demo_state`'s sixth call (budget 0) is in root mode and
uses the root model, masks, board count and normalization constant. -/
theorem claim_c3_mode_selection_witness :
    active_bc demo_state = demo_state.next_boards_count ∧
    active_nn demo_state = demo_state.next_street_nn ∧
    active_mask demo_state = demo_state.next_boards_mask ∧
    active_sum_normalization demo_state = demo_state.root_nodes_sum_normalization ∧
    (evaluate_ranges_core demo_state demo_ranges).1.current_round_inputs =
      demo_state.current_round_inputs ∧
    (evaluate_ranges_core demo_state demo_ranges).1.current_round_values =
      demo_state.current_round_values :=
  (claim_c3_mode_selection demo_state demo_ranges).2.2.1 (by decide)

/-- C4: a hand marked illegal by the active mask carries exactly zero mass
after masking and after normalization, the zero is what the call writes
into the range slots of the active model-input buffer, and the
normalization denominator is the sum over the legal hands only, so illegal
hands contribute nothing to it. -/
theorem claim_c4_masked_hands_zero (s : EngineState) (ranges : RangeBatch)
    (b B p h : ℕ) (hb : b < s.batch_size) (hB : B < active_bc s) (hp : p < 2)
    (hh : h < s.hand_count) (hmask : active_mask s B h = false) :
    masked_ranges s ranges b B p h = 0 ∧
    normalized_ranges s ranges b B p h = 0 ∧
    (match mode s with
      | ApproxMode.root => (evaluate_ranges_core s ranges).1.next_round_inputs
      | ApproxMode.leaf => (evaluate_ranges_core s ranges).1.current_round_inputs)
        b B p h = 0 ∧
    ranges_sum s ranges b B p =
      ∑ h2 in (Finset.range s.hand_count).filter (fun h2 => active_mask s B h2 = true),
        ranges b p h2 := by
  have hmz : masked_ranges s ranges b B p h = 0 := by
    rw [masked_ranges, hmask]
    norm_num
  have hnz : normalized_ranges s ranges b B p h = 0 := by
    rw [normalized_ranges, hmz, zero_div]
  refine ⟨hmz, hnz, ?_, ?_⟩
  · have hwrite : ∀ old : Tensor4, written_inputs s ranges old b B p h = 0 := by
      intro old
      rw [written_inputs, if_pos ⟨hb, hB, hp, hh⟩, hnz]
    cases hm : mode s
    · have hbuf : (evaluate_ranges_core s ranges).1.current_round_inputs =
          written_inputs s ranges s.current_round_inputs := by
        simp only [evaluate_ranges_core, hm]
      show (evaluate_ranges_core s ranges).1.current_round_inputs b B p h = 0
      rw [hbuf]
      exact hwrite _
    · have hbuf : (evaluate_ranges_core s ranges).1.next_round_inputs =
          written_inputs s ranges s.next_round_inputs := by
        simp only [evaluate_ranges_core, hm]
      show (evaluate_ranges_core s ranges).1.next_round_inputs b B p h = 0
      rw [hbuf]
      exact hwrite _
  · rw [ranges_sum, Finset.sum_filter]
    refine Finset.sum_congr rfl ?_
    intro h2 _
    cases hm2 : active_mask s B h2
    · simp [masked_ranges, hm2]
    · simp [masked_ranges, hm2]

/-- C4, witness: on `demo_state2` (two hands, only hand 0 legal) the
illegal hand 1 carries zero mass into the model and the denominator ranges
over the legal hands only. -/
theorem claim_c4_masked_hands_zero_witness :
    masked_ranges demo_state2 demo_ranges 0 0 0 1 = 0 ∧
    normalized_ranges demo_state2 demo_ranges 0 0 0 1 = 0 ∧
    (match mode demo_state2 with
      | ApproxMode.root => (evaluate_ranges_core demo_state2 demo_ranges).1.next_round_inputs
      | ApproxMode.leaf => (evaluate_ranges_core demo_state2 demo_ranges).1.current_round_inputs)
        0 0 0 1 = 0 ∧
    ranges_sum demo_state2 demo_ranges 0 0 0 =
      ∑ h2 in (Finset.range demo_state2.hand_count).filter
          (fun h2 => active_mask demo_state2 0 h2 = true),
        demo_ranges 0 0 h2 :=
  claim_c4_masked_hands_zero demo_state2 demo_ranges 0 0 0 1 (by decide) (by decide)
    (by decide) (by decide) (by decide)

/-- C5: the rescale factor applied to the model output after inference is
the players-swapped masked-mass sum — player 0's saved scale is player 1's
masked range mass and vice versa — and the returned per-state values are
built from the model output multiplied exactly by that swapped scale
(then clipped and reduced over boards). -/
theorem claim_c5_swapped_rescale (s : EngineState) (ranges : RangeBatch) :
    (∀ b B, values_norm s ranges b B 0 = ranges_sum s ranges b B 1 ∧
      values_norm s ranges b B 1 = ranges_sum s ranges b B 0) ∧
    (∀ b B p h, rescaled_out s ranges b B p h =
      nn_out_raw s ranges b B p h * values_norm s ranges b B p) ∧
    (∀ b p h, (evaluate_ranges_core s ranges).2 b p h =
      (∑ B in Finset.range (active_bc s),
        min (max_values s b) (max (-(max_values s b))
          (nn_out_raw s ranges b B p h * values_norm s ranges b B p))) *
        active_sum_normalization s) := by
  refine ⟨fun b B => ⟨rfl, rfl⟩, fun b B p h => rfl, fun b p h => rfl⟩

/-- C6: every division in range normalization and in accumulator averaging
uses a guarded divisor, nonzero for every input; and a (state, board,
player) slot whose masked range mass is zero (with nonnegative input
ranges) yields the defined zero normalized range rather than an undefined
result. -/
theorem claim_c6_guarded_division (s : EngineState) (ranges : RangeBatch)
    (b B p h : ℕ) (hr : ∀ h2, 0 ≤ ranges b p h2) (hh : h < s.hand_count) :
    guarded_ranges_sum s ranges b B p ≠ 0 ∧
    guarded_cumulative_norm s b B p ≠ 0 ∧
    (ranges_sum s ranges b B p = 0 → normalized_ranges s ranges b B p h = 0) := by
  refine ⟨?_, ?_, ?_⟩
  · rw [guarded_ranges_sum]
    by_cases hz : ranges_sum s ranges b B p = 0
    · rw [if_pos hz]; exact one_ne_zero
    · rw [if_neg hz]; exact hz
  · rw [guarded_cumulative_norm]
    by_cases hz : s.cumulative_norm b B p = 0
    · rw [if_pos hz]; exact one_ne_zero
    · rw [if_neg hz]; exact hz
  · intro hz
    have hterm : masked_ranges s ranges b B p h = 0 := by
      have hnonneg : ∀ h2 ∈ Finset.range s.hand_count,
          0 ≤ masked_ranges s ranges b B p h2 := by
        intro h2 _
        rw [masked_ranges]
        cases hm2 : active_mask s B h2
        · simp
        · simpa using hr h2
      have := (Finset.sum_eq_zero_iff_of_nonneg hnonneg).mp hz
      exact this h (Finset.mem_range.mpr hh)
    rw [normalized_ranges, hterm, zero_div]

/-- C6, witness: at `demo_state2` with the uniform ranges the guarded
divisors are nonzero and the zero-mass implication holds. -/
theorem claim_c6_guarded_division_witness :
    guarded_ranges_sum demo_state2 demo_ranges 0 0 0 ≠ 0 ∧
    guarded_cumulative_norm demo_state2 0 0 0 ≠ 0 ∧
    (ranges_sum demo_state2 demo_ranges 0 0 0 = 0 →
      normalized_ranges demo_state2 demo_ranges 0 0 0 1 = 0) :=
  claim_c6_guarded_division demo_state2 demo_ranges 0 0 0 1
    (fun _ => zero_le_one) (by decide)

/-- Helper: `np.clip(x, -m, m)` lands in `[-m, m]` whenever `0 ≤ m`. -/
theorem abs_clip_le (m x : ℚ) (hm : 0 ≤ m) : |min m (max (-m) x)| ≤ m := by
  rw [abs_le]
  exact ⟨le_min (by linarith) (le_max_left _ _), min_le_left _ _⟩

/-- C2: with the normalization constants as installed by `init_computation`
(root: the reciprocal of the next-board count, leaf: the reciprocal of a
positive legal-hand count), a positive pot for the state and a nonnegative
stack, every entry of the per-state CFV tensor returned by
`evaluate_ranges` lies within `[-stack/potSize, stack/potSize]`, in both
modes. -/
theorem claim_c2_output_bounded (s : EngineState) (ranges : RangeBatch) (b p h : ℕ)
    (hpot : 0 < s.pot_sizes b) (hstack : 0 ≤ s.stack)
    (hroot : s.root_nodes_sum_normalization = 1 / (s.next_boards_count : ℚ))
    (hBC : 1 ≤ s.next_boards_count)
    (hleaf : ∃ c : ℕ, 1 ≤ c ∧ s.leaf_nodes_sum_normalization = 1 / (c : ℚ)) :
    |(evaluate_ranges_core s ranges).2 b p h| ≤ s.stack / s.pot_sizes b := by
  have hM : 0 ≤ max_values s b := div_nonneg hstack (le_of_lt hpot)
  have hclip : ∀ B, |clipped_out s ranges b B p h| ≤ max_values s b := fun B =>
    abs_clip_le _ _ hM
  have hsum : ∀ n : ℕ, |∑ B in Finset.range n, clipped_out s ranges b B p h| ≤
      (n : ℚ) * max_values s b := by
    intro n
    calc |∑ B in Finset.range n, clipped_out s ranges b B p h|
        ≤ ∑ B in Finset.range n, |clipped_out s ranges b B p h| :=
          Finset.abs_sum_le_sum_abs _ _
      _ ≤ (n : ℚ) * max_values s b := by
          have := Finset.sum_le_card_nsmul (Finset.range n)
            (fun B => |clipped_out s ranges b B p h|) (max_values s b)
            (fun B _ => hclip B)
          simpa [nsmul_eq_mul] using this
  show |current_board_values s ranges b p h| ≤ max_values s b
  rw [current_board_values]
  cases hm : mode s
  · obtain ⟨c, hc1, hcs⟩ := hleaf
    have hbc : active_bc s = 1 := by simp only [active_bc, hm]
    have hns : active_sum_normalization s = 1 / (c : ℚ) := by
      simp only [active_sum_normalization, hm, hcs]
    rw [hbc, hns, abs_mul]
    have hcq : (0 : ℚ) < (c : ℚ) := by exact_mod_cast hc1
    have habs : |1 / (c : ℚ)| = 1 / (c : ℚ) := abs_of_nonneg (by positivity)
    rw [habs]
    have h1 : |∑ B in Finset.range 1, clipped_out s ranges b B p h| ≤
        1 * max_values s b := by simpa using hsum 1
    calc |∑ B in Finset.range 1, clipped_out s ranges b B p h| * (1 / (c : ℚ))
        ≤ (1 * max_values s b) * (1 / (c : ℚ)) :=
          mul_le_mul_of_nonneg_right h1 (by positivity)
      _ ≤ max_values s b := by
          rw [one_mul]
          have hle : 1 / (c : ℚ) ≤ 1 := by
            rw [div_le_one hcq]
            exact_mod_cast hc1
          exact mul_le_of_le_one_right hM hle
  · have hbc : active_bc s = s.next_boards_count := by simp only [active_bc, hm]
    have hns : active_sum_normalization s = 1 / (s.next_boards_count : ℚ) := by
      simp only [active_sum_normalization, hm, hroot]
    rw [hbc, hns, abs_mul]
    have hbcq : (0 : ℚ) < (s.next_boards_count : ℚ) := by exact_mod_cast hBC
    have hne : (s.next_boards_count : ℚ) ≠ 0 := ne_of_gt hbcq
    have habs : |1 / (s.next_boards_count : ℚ)| = 1 / (s.next_boards_count : ℚ) :=
      abs_of_nonneg (by positivity)
    rw [habs]
    calc |∑ B in Finset.range s.next_boards_count, clipped_out s ranges b B p h| *
          (1 / (s.next_boards_count : ℚ))
        ≤ ((s.next_boards_count : ℚ) * max_values s b) *
            (1 / (s.next_boards_count : ℚ)) :=
          mul_le_mul_of_nonneg_right (hsum _) (by positivity)
      _ = max_values s b := by field_simp

/-- C2, witness at the concrete root-mode call on `demo_state`. -/
theorem claim_c2_output_bounded_witness :
    |(evaluate_ranges_core demo_state demo_ranges).2 0 0 0| ≤
      demo_state.stack / demo_state.pot_sizes 0 :=
  claim_c2_output_bounded demo_state demo_ranges 0 0 0
    (by norm_num [demo_state]) (by norm_num [demo_state])
    (by norm_num [demo_state]) (by decide)
    ⟨1, le_refl 1, by norm_num [demo_state]⟩

/-- The iteration counter advances by exactly one per `evaluate_ranges`
call. -/
theorem run_evaluates_iter (rs : ℕ → RangeBatch) (s : EngineState) (n : ℕ) :
    (run_evaluates rs s n).iter = s.iter + n := by
  induction n with
  | zero => rfl
  | succ n ih =>
    show (evaluate_ranges_core (run_evaluates rs s n) (rs n)).1.iter = s.iter + (n + 1)
    have hstep : (evaluate_ranges_core (run_evaluates rs s n) (rs n)).1.iter =
        (run_evaluates rs s n).iter + 1 := rfl
    rw [hstep, ih]
    omega

/-- `evaluate_ranges` never changes the two iteration thresholds. -/
theorem run_evaluates_config (rs : ℕ → RangeBatch) (s : EngineState) (n : ℕ) :
    (run_evaluates rs s n).cfr_skip_iters = s.cfr_skip_iters ∧
    (run_evaluates rs s n).num_leaf_nodes_approximation_iters =
      s.num_leaf_nodes_approximation_iters := by
  induction n with
  | zero => exact ⟨rfl, rfl⟩
  | succ n ih =>
    have h1 : (evaluate_ranges_core (run_evaluates rs s n) (rs n)).1.cfr_skip_iters =
        (run_evaluates rs s n).cfr_skip_iters := rfl
    have h2 : (evaluate_ranges_core (run_evaluates rs s n)
        (rs n)).1.num_leaf_nodes_approximation_iters =
        (run_evaluates rs s n).num_leaf_nodes_approximation_iters := rfl
    exact ⟨h1.trans ih.1, h2.trans ih.2⟩

/-- As long as the counter stays within `max skip budget`, no call touches
the accumulator. -/
theorem run_evaluates_cumulative_frame (rs : ℕ → RangeBatch) (s : EngineState)
    (n : ℕ)
    (h : s.iter + n ≤ max s.cfr_skip_iters s.num_leaf_nodes_approximation_iters) :
    (run_evaluates rs s n).cumulative_cfvs = s.cumulative_cfvs ∧
    (run_evaluates rs s n).cumulative_norm = s.cumulative_norm := by
  induction n with
  | zero => exact ⟨rfl, rfl⟩
  | succ n ih =>
    have hn := ih (by omega)
    have hiter := run_evaluates_iter rs s n
    have hcfg := run_evaluates_config rs s n
    have hcond : (run_evaluates rs s n).iter + 1 ≤
        (run_evaluates rs s n).cfr_skip_iters ∨
        (run_evaluates rs s n).iter + 1 ≤
          (run_evaluates rs s n).num_leaf_nodes_approximation_iters := by
      rw [hiter, hcfg.1, hcfg.2]
      omega
    have hframe := core_cumulative_frame (run_evaluates rs s n) (rs n) hcond
    exact ⟨hframe.1.trans hn.1, hframe.2.trans hn.2⟩

/-- C8: if after setup the iteration counter never exceeds
`max(skip threshold, leaf budget)` — so nothing was added to the
accumulator zeroed at setup — `retrieveAccumulated` returns the all-zero
tensor (the zero accumulator divided by the guarded divisor of one), with
every entry defined. -/
theorem claim_c8_zero_accumulator_retrieve (pot_sizes_arg : List ℚ)
    (batch_size_arg next_boards_count hand_count : ℕ)
    (next_boards_mask : ℕ → ℕ → Bool) (current_board_mask : ℕ → Bool)
    (stack : ℚ) (num_leaf_iters cfr_skip_iters : ℕ)
    (next_street_nn leaf_nodes_nn : NnModel) (rs : ℕ → RangeBatch) (n : ℕ)
    (hn : n ≤ max cfr_skip_iters num_leaf_iters) :
    ∀ b B p h,
      (get_stored_cfvs_of_all_next_round_boards (run_evaluates rs
        (init_computation pot_sizes_arg batch_size_arg next_boards_count hand_count
          next_boards_mask current_board_mask stack num_leaf_iters cfr_skip_iters
          next_street_nn leaf_nodes_nn) n)).2 b B p h = 0 := by
  intro b B p h
  set s0 := init_computation pot_sizes_arg batch_size_arg next_boards_count
    hand_count next_boards_mask current_board_mask stack num_leaf_iters
    cfr_skip_iters next_street_nn leaf_nodes_nn
  have hiter0 : s0.iter = 0 := rfl
  have hskip0 : s0.cfr_skip_iters = cfr_skip_iters := rfl
  have hbud0 : s0.num_leaf_nodes_approximation_iters = num_leaf_iters := rfl
  have hcum := run_evaluates_cumulative_frame rs s0 n
    (by rw [hiter0, hskip0, hbud0]; omega)
  have halias : (get_stored_cfvs_of_all_next_round_boards
      (run_evaluates rs s0 n)).2 b B p h =
      (run_evaluates rs s0 n).cumulative_cfvs b B p h /
        guarded_cumulative_norm (run_evaluates rs s0 n) b B p := rfl
  rw [halias, hcum.1]
  have h0 : s0.cumulative_cfvs b B p h = 0 := rfl
  rw [h0]
  exact zero_div _

/-- C8, witness: one warm-up call (skip threshold 3) then retrieval yields
zero. -/
theorem claim_c8_zero_accumulator_retrieve_witness :
    (get_stored_cfvs_of_all_next_round_boards (run_evaluates (fun _ => demo_ranges)
      (init_computation [1] 1 1 1 (fun _ _ => true) (fun _ => true) 1 0 3
        (fun _ _ _ _ _ => 5) (fun _ _ _ _ _ => 0)) 1)).2 0 0 0 0 = 0 :=
  claim_c8_zero_accumulator_retrieve [1] 1 1 1 (fun _ _ => true) (fun _ => true)
    1 0 3 (fun _ _ _ _ _ => 5) (fun _ _ _ _ _ => 0) (fun _ => demo_ranges) 1
    (by decide) 0 0 0 0

/-- C9: after `init_computation(board, potSizes, batchSize)` the recorded
batch size is `len(potSizes) * batchSize`, each supplied pot size is
replicated `batchSize` times into consecutive batch slots, and
`evaluate_ranges` accepts exactly the ranges whose batch dimension equals
this product. -/
theorem claim_c9_batch_product (pot_sizes_arg : List ℚ)
    (batch_size_arg next_boards_count hand_count : ℕ)
    (next_boards_mask : ℕ → ℕ → Bool) (current_board_mask : ℕ → Bool)
    (stack : ℚ) (num_leaf_iters cfr_skip_iters : ℕ)
    (next_street_nn leaf_nodes_nn : NnModel) :
    (init_computation pot_sizes_arg batch_size_arg next_boards_count hand_count
      next_boards_mask current_board_mask stack num_leaf_iters cfr_skip_iters
      next_street_nn leaf_nodes_nn).batch_size =
        pot_sizes_arg.length * batch_size_arg ∧
    (∀ i j, i < pot_sizes_arg.length → j < batch_size_arg →
      (init_computation pot_sizes_arg batch_size_arg next_boards_count hand_count
        next_boards_mask current_board_mask stack num_leaf_iters cfr_skip_iters
        next_street_nn leaf_nodes_nn).pot_sizes (i * batch_size_arg + j) =
          pot_sizes_arg.getD i 0) ∧
    (∀ dim ranges,
      (evaluate_ranges (init_computation pot_sizes_arg batch_size_arg
        next_boards_count hand_count next_boards_mask current_board_mask stack
        num_leaf_iters cfr_skip_iters next_street_nn leaf_nodes_nn)
        dim ranges).isSome = true ↔
      dim = pot_sizes_arg.length * batch_size_arg) := by
  refine ⟨rfl, ?_, ?_⟩
  · intro i j hi hj
    have hb : 0 < batch_size_arg := Nat.lt_of_le_of_lt (Nat.zero_le j) hj
    show pot_sizes_arg.getD ((i * batch_size_arg + j) / batch_size_arg) 0 =
      pot_sizes_arg.getD i 0
    have hdiv : (i * batch_size_arg + j) / batch_size_arg = i := by
      rw [mul_comm, Nat.mul_add_div hb, Nat.div_eq_of_lt hj, add_zero]
    rw [hdiv]
  · intro dim ranges
    have hbs : (init_computation pot_sizes_arg batch_size_arg next_boards_count
        hand_count next_boards_mask current_board_mask stack num_leaf_iters
        cfr_skip_iters next_street_nn leaf_nodes_nn).batch_size =
        pot_sizes_arg.length * batch_size_arg := rfl
    rw [evaluate_ranges, hbs]
    by_cases hd : dim = pot_sizes_arg.length * batch_size_arg
    · rw [if_pos hd]
      simpa using hd
    · rw [if_neg hd]
      simpa using hd

/-- C9, witness: two pot sizes replicated twice each give batch 4 and pot
slot `1*2+0` holds the second supplied pot size. -/
theorem claim_c9_batch_product_witness :
    (init_computation [5, 7] 2 1 1 (fun _ _ => true) (fun _ => true) 1 0 0
      (fun _ _ _ _ _ => 0) (fun _ _ _ _ _ => 0)).pot_sizes (1 * 2 + 0) =
      ([5, 7] : List ℚ).getD 1 0 :=
  (claim_c9_batch_product [5, 7] 2 1 1 (fun _ _ => true) (fun _ => true) 1 0 0
    (fun _ _ _ _ _ => 0) (fun _ _ _ _ _ => 0)).2.1 1 0 (by decide) (by decide)

/-- C10: `retrieveAccumulated` returns an alias of the engine's mutated
accumulator (the returned tensor is the new `cumulative_cfvs`), it divides
`cumulative_cfvs` by the zero-guarded `cumulative_norm` in place and keeps
the guarded norm, and it is not idempotent: on a state with accumulated
cfvs 4 and norm 2 two consecutive calls return 2 and then 1. -/
theorem claim_c10_retrieve_not_idempotent :
    (∀ s : EngineState, (get_stored_cfvs_of_all_next_round_boards s).2 =
      (get_stored_cfvs_of_all_next_round_boards s).1.cumulative_cfvs) ∧
    (∀ (s : EngineState) (b B p h : ℕ),
      (get_stored_cfvs_of_all_next_round_boards s).1.cumulative_cfvs b B p h =
        s.cumulative_cfvs b B p h / guarded_cumulative_norm s b B p) ∧
    (∀ s : EngineState,
      (get_stored_cfvs_of_all_next_round_boards s).1.cumulative_norm =
        guarded_cumulative_norm s) ∧
    (get_stored_cfvs_of_all_next_round_boards
      (get_stored_cfvs_of_all_next_round_boards demo_accumulated).1).2 0 0 0 0 ≠
      (get_stored_cfvs_of_all_next_round_boards demo_accumulated).2 0 0 0 0 := by
  refine ⟨fun s => rfl, fun s b B p h => rfl, fun s => rfl, ?_⟩
  norm_num [get_stored_cfvs_of_all_next_round_boards, guarded_cumulative_norm,
    demo_accumulated, demo_state]

end NextRoundValue

end PyStack
